import Mathlib

/-!
# Verification of the VIFF MPC runtime against its specification

This file gives a shallow embedding of the parts of `viff/runtime.py` that
the specification talks about: the field-level arithmetic of the
multiplication protocols, the program-counter scheduler, the preprocessing
pool, the per-peer incoming-message router, the `ShareList` aggregate, the
Bracha broadcast handlers, and the `open` protocol.  Python methods become
Lean functions; the mutable runtime state becomes explicit state passing;
exceptions become `Except String`; Python lists of ints become `List Nat`.
-/

namespace Viff

/-! ## Field-level arithmetic of the multiplication protocols -/

/-- Embeds the arithmetic of the `finish_mul` callback inside
`ActiveRuntime.mul` (`runtime.py` lines 1085-1101): given the components
`a`, `b`, `c` of a multiplication triple it opens `d = x - a` and
`e = y - b` and computes `d*e + d*b + e*a + c`. -/
def finish_mul {F : Type} [Field F] (x y a b c : F) : F :=
  let d := x - a
  let e := y - b
  d * e + d * b + e * a + c

/-- Embeds `Runtime.xor` (`runtime.py` lines 799-814).  The Boolean
argument models the test `field is GF256`: on the GF256 branch the method
returns `share_a + share_b`, otherwise
`share_a + share_b - 2 * share_a * share_b`.  Only ring operations are
used, so the embedding is stated over a commutative ring. -/
def runtime_xor {F : Type} [CommRing F] (field_is_GF256 : Bool) (a b : F) : F :=
  if field_is_GF256 then a + b else a + b - 2 * a * b

/-! ## Program counter and scheduler -/

/-- The slice of `BasicRuntime` state that the scheduler manipulates: the
mutable program counter (`runtime.py` line 466), a list of counters, one
per nesting level. -/
structure RTState where
  program_counter : List Nat
deriving DecidableEq

/-- Embeds `callback_wrapper` from `BasicRuntime.schedule_callback`
(`runtime.py` lines 551-559).  The callback body `func` runs with the
program counter replaced by `saved_pc`; the `try`/`finally` restores the
counter that was live when the deferred fired, whether the body returns
normally or raises (the `Except` result of `func`). -/
def callback_wrapper {A : Type} (saved_pc : List Nat)
    (func : RTState → RTState × Except String A) (s : RTState) :
    RTState × Except String A :=
  let current_pc := s.program_counter
  let r := func { s with program_counter := saved_pc }
  ({ r.1 with program_counter := current_pc }, r.2)

/-- Embeds `BasicRuntime.schedule_callback` (`runtime.py` lines 531-561):
`saved_pc` is a copy of the program counter at registration time
(`saved_pc = self.program_counter[:]`), and the wrapped callback is what
runs when the deferred later fires. -/
def schedule_callback {A : Type} (s_reg : RTState)
    (func : RTState → RTState × Except String A) :
    RTState → RTState × Except String A :=
  callback_wrapper s_reg.program_counter func

/-- Embeds `inc_pc_wrapper` of the `increment_pc` decorator (`runtime.py`
lines 353-360).  On entry the last program-counter entry is incremented
and a fresh `0` is appended (`self.program_counter[-1] += 1` followed by
`append(0)`); the `try`/`finally` pops the last entry on every exit path.
`pop` on a non-empty list is modelled by `List.dropLast`; the `[-1]`
access is modelled by `List.getLastD` (the Python code would raise on an
empty counter, which never occurs since the counter starts as `[0]`). -/
def inc_pc_wrapper {A : Type} (method : RTState → RTState × Except String A)
    (s : RTState) : RTState × Except String A :=
  let pc := s.program_counter
  let entry_pc := pc.dropLast ++ [pc.getLastD 0 + 1, 0]
  let r := method { s with program_counter := entry_pc }
  ({ r.1 with program_counter := r.1.program_counter.dropLast }, r.2)

/-! ## The preprocessing pool -/

/-- The slice of `BasicRuntime` state used by the `preprocess` decorator:
the program counter, the pool `_pool` mapping program-counter tuples to
pre-computed items (`none` models a missing key), and the demand record
`_needed_data` mapping `(generator name, args)` keys to the list of
program counters at which data was demanded (`[]` models a missing
key). -/
structure PPState (V A : Type) where
  program_counter : List Nat
  pool : List Nat → Option V
  needed_data : String × A → List (List Nat)

/-- Embeds the demand recording of `preprocess_wrapper` (`runtime.py`
lines 386-388): `pcs = self._needed_data.setdefault(key, [])` followed by
`pcs.append(pc)`. -/
def record_need {V A : Type} [DecidableEq A] (generator : String) (args : A)
    (s : PPState V A) : PPState V A :=
  let key := (generator, args)
  let pcs := s.needed_data key ++ [s.program_counter]
  { s with needed_data := Function.update s.needed_data key pcs }

/-- Embeds `preprocess_wrapper` from the `preprocess` decorator
(`runtime.py` lines 378-391): look up the current program-counter tuple in
the pool; on a hit return the pooled item, on a `KeyError` record the
demand and fall back to the original method. -/
def preprocess_wrapper {V A : Type} [DecidableEq A] (generator : String)
    (method : A → PPState V A → PPState V A × V) (args : A)
    (s : PPState V A) : PPState V A × V :=
  match s.pool s.program_counter with
  | some v => (s, v)
  | none => method args (record_need generator args s)

/-! ## Synchronous precondition checks -/

/-- The state produced by `BasicRuntime.__init__` (`runtime.py` lines
434-486) when its precondition holds: player id, threshold, the initial
program counter `[0]`, and the player count after `add_player` has added
this player itself. -/
structure BRState where
  id : Nat
  threshold : Int
  program_counter : List Nat
  num_players : Nat
deriving DecidableEq

/-- Embeds `BasicRuntime.__init__` (`runtime.py` lines 434-486): the very
first statement is `assert threshold > 0, "Must use a positive
threshold."`; only when it passes is the runtime state constructed. -/
def basic_runtime_init (player_id : Nat) (threshold : Int) :
    Except String BRState :=
  if 0 < threshold then
    Except.ok { id := player_id, threshold := threshold,
                program_counter := [0], num_players := 1 }
  else
    Except.error "Must use a positive threshold."

/-- Embeds the parameter verification and send behaviour of
`Runtime.prss_share` (`runtime.py` lines 816-883).  The method begins with
the two asserts on `element` and `inputters`; only after they pass does an
inputter broadcast its correction value to every other player.  The
numeric correction value (computed from the PRSS evaluation and Shamir
recombination, whose modules are external to this embedding) is abstracted
as the argument `correction`; the result on success is the list of
`(peer, value)` share messages sent. -/
def prss_share {F : Type} (self_id : Nat) (players inputters : List Nat)
    (element : Option F) (correction : F) :
    Except String (List (Nat × F)) :=
  match element with
  | none =>
      if self_id ∈ inputters then Except.error "No element given."
      else Except.ok []
  | some _ =>
      if self_id ∈ inputters then
        Except.ok ((players.filter (fun p => p ≠ self_id)).map
          (fun p => (p, correction)))
      else Except.error "Element given, but we are not sharing?"

/-! ## The per-peer incoming-message router -/

/-- An entry of a `ShareExchanger.incoming_data` deque: either a buffered
payload (raw marshalled data) or a pending waiter (a `Deferred` registered
by `_expect_data`). -/
inductive Entry (D W : Type) where
  | data : D → Entry D W
  | waiter : W → Entry D W
deriving DecidableEq

/-- Whether an entry is a buffered payload. -/
def Entry.isData {D W : Type} : Entry D W → Bool
  | Entry.data _ => true
  | Entry.waiter _ => false

/-- The `incoming_data` mapping of one `ShareExchanger` (`runtime.py` line
258): keys are `(program counter, data kind)` pairs, values are deques.
A key that maps to `[]` models an absent key (the code deletes a key
whenever its deque becomes empty, and `setdefault` recreates it). -/
def IncomingData (K D W : Type) : Type := K → List (Entry D W)

/-- Embeds the data branch of `ShareExchanger.stringReceived`
(`runtime.py` lines 291-301): if the deque for the key is non-empty and
headed by a waiter, pop the waiter and fire it with the data; otherwise
append the data to the deque.  The second component reports the waiter
fired, if any. -/
def stringReceived {K D W : Type} [DecidableEq K] (m : IncomingData K D W)
    (key : K) (data : D) : IncomingData K D W × Option (W × D) :=
  match m key with
  | Entry.waiter w :: rest => (Function.update m key rest, some (w, data))
  | _ => (Function.update m key (m key ++ [Entry.data data]), none)

/-- Embeds `BasicRuntime._expect_data` (`runtime.py` lines 571-587): if
the deque for the key is non-empty and headed by buffered data, pop the
data and fire the given deferred with it; otherwise append the deferred to
the deque as a waiter. -/
def expect_data {K D W : Type} [DecidableEq K] (m : IncomingData K D W)
    (key : K) (deferred : W) : IncomingData K D W × Option (W × D) :=
  match m key with
  | Entry.data d :: rest => (Function.update m key rest, some (deferred, d))
  | _ => (Function.update m key (m key ++ [Entry.waiter deferred]), none)

/-- An event acting on an `incoming_data` mapping: a message arrival
(`stringReceived`) or a waiter registration (`_expect_data`). -/
inductive IDEvent (K D W : Type) where
  | arrive : K → D → IDEvent K D W
  | expect : K → W → IDEvent K D W

/-- One event applied to the mapping. -/
def incoming_step {K D W : Type} [DecidableEq K] (m : IncomingData K D W) :
    IDEvent K D W → IncomingData K D W
  | IDEvent.arrive k d => (stringReceived m k d).1
  | IDEvent.expect k w => (expect_data m k w).1

/-- A sequence of arrival/registration events applied to the mapping. -/
def incoming_run {K D W : Type} [DecidableEq K] (m : IncomingData K D W)
    (evs : List (IDEvent K D W)) : IncomingData K D W :=
  evs.foldl incoming_step m

/-- The empty `incoming_data` mapping (the state right after
`ShareExchanger.__init__`). -/
def incoming_empty (K D W : Type) : IncomingData K D W := fun _ => []

/-- The property claimed for `incoming_data`: every key holds at most one
entry in total. -/
def at_most_one_entry {K D W : Type} (m : IncomingData K D W) : Prop :=
  ∀ k, (m k).length ≤ 1

/-- The invariant that actually holds for `incoming_data`: the deque of
every key is homogeneous, holding only buffered payloads or only pending
waiters, never a mix of the two. -/
def kind_homogeneous {K D W : Type} (m : IncomingData K D W) : Prop :=
  ∀ k, (∀ e ∈ m k, e.isData = true) ∨ (∀ e ∈ m k, e.isData = false)

/-! ## ShareList -/

/-- The mutable state of a `ShareList` (`runtime.py` lines 184-213):
the `results` slots, the `missing_shares` countdown (a Python int, which
keeps decrementing below zero after the trigger), and the underlying
deferred's `called` flag. -/
structure SLState (V : Type) where
  results : List (Option (Bool × V))
  missing_shares : Int
  called : Bool
deriving DecidableEq

/-- The state built by `ShareList.__init__` for `n` constituent shares
and an optional threshold (default `n`). -/
def share_list_init (V : Type) (n : Nat) (threshold : Option Nat) :
    SLState V :=
  { results := List.replicate n none,
    missing_shares := (threshold.getD n : Nat),
    called := false }

/-- Embeds `ShareList._callback_fired` (`runtime.py` lines 208-213) for
the resolution event of the constituent share at `idx` with flag
`success` and value `v`: store the pair, decrement `missing_shares`, and
fire the aggregate (second component) exactly when the deferred has not
yet been called and the countdown hits zero. -/
def callback_fired {V : Type} (s : SLState V) (e : Nat × Bool × V) :
    SLState V × Option (List (Option (Bool × V))) :=
  let results := s.results.set e.1 (some (e.2.1, e.2.2))
  let missing := s.missing_shares - 1
  if s.called = false ∧ missing = 0 then
    ({ results := results, missing_shares := missing, called := true },
     some results)
  else
    ({ results := results, missing_shares := missing, called := s.called },
     none)

/-- Runs a sequence of constituent-share resolution events against a
`ShareList` state, collecting every aggregate firing in order. -/
def share_list_run {V : Type} (s : SLState V) :
    List (Nat × Bool × V) → SLState V × List (List (Option (Bool × V)))
  | [] => (s, [])
  | e :: evs =>
      let r := callback_fired s e
      let rest := share_list_run r.1 evs
      (rest.1, r.2.toList ++ rest.2)

/-- The `results` slots after a list of resolution events has been
stored. -/
def apply_events {V : Type} (r : List (Option (Bool × V)))
    (evs : List (Nat × Bool × V)) : List (Option (Bool × V)) :=
  evs.foldl (fun acc e => acc.set e.1 (some (e.2.1, e.2.2))) r

/-! ## Bracha broadcast -/

/-- The per-message state of `ActiveRuntime._broadcast` (`runtime.py`
lines 1342-1438): the lists of distinct peers from which an echo/ready
message has been received (`bracha_echo[message]`,
`bracha_ready[message]`), and the `bracha_sent_ready[message]` and
`bracha_delivered[message]` flags.  The dictionaries are keyed by message,
and the entries for distinct messages never interact, so the embedding
tracks the entry of one message. -/
structure BrachaState where
  echo_ids : List Nat
  ready_ids : List Nat
  sent_ready : Bool
  delivered : Bool
deriving DecidableEq

/-- The state created by the `setdefault` calls on first contact with a
message: no echo or ready senders recorded, nothing sent or delivered. -/
def bracha_init : BrachaState :=
  { echo_ids := [], ready_ids := [], sent_ready := false, delivered := false }

/-- The echo quorum `ceil((n+t+1)/2)` of `echo_received` (`runtime.py`
line 1384), with the true division of `from __future__ import division`:
as a natural number this is `(n+t+2)/2` rounded down. -/
def echo_threshold (n t : Nat) : Nat := (n + t + 2) / 2

/-- Embeds `ready_received` (`runtime.py` lines 1389-1406).  Returns the
new state together with the number of `ready` disseminations
(`unsafe_broadcast("ready", ...)`) and the number of deliveries
(`result.callback(message)`) this call performs.  When the ready count
reaches `t+1` and no ready was sent, the player broadcasts `ready` and
immediately counts itself by the recursive call
`ready_received(message, self.id)`. -/
def ready_received (n t self_id : Nat) (peer_id : Nat) (s : BrachaState) :
    BrachaState × Nat × Nat :=
  if peer_id ∈ s.ready_ids then (s, 0, 0)
  else
    let ids := s.ready_ids ++ [peer_id]
    if h : ids.length = t + 1 ∧ s.sent_ready = false then
      let r := ready_received n t self_id self_id
        { s with ready_ids := ids, sent_ready := true }
      (r.1, r.2.1 + 1, r.2.2)
    else if ids.length = 2 * t + 1 ∧ s.delivered = false then
      ({ s with ready_ids := ids, delivered := true }, 0, 1)
    else
      ({ s with ready_ids := ids }, 0, 0)
termination_by (if s.sent_ready then 0 else 1)
decreasing_by simp [h.2]

/-- Embeds `echo_received` (`runtime.py` lines 1375-1387): record the
peer if new; when the distinct-echo count reaches the quorum
`ceil((n+t+1)/2)` and no ready was sent yet, broadcast `ready` and count
this player itself via `ready_received(message, self.id)`. -/
def echo_received (n t self_id : Nat) (peer_id : Nat) (s : BrachaState) :
    BrachaState × Nat × Nat :=
  if peer_id ∈ s.echo_ids then (s, 0, 0)
  else
    let ids := s.echo_ids ++ [peer_id]
    if echo_threshold n t ≤ ids.length ∧ s.sent_ready = false then
      let r := ready_received n t self_id self_id
        { s with echo_ids := ids, sent_ready := true }
      (r.1, r.2.1 + 1, r.2.2)
    else
      ({ s with echo_ids := ids }, 0, 0)

/-- An event delivered to the `_broadcast` handlers for one message: an
echo or ready message from a peer, or the send message from the
designated sender (whose handler `send_received` broadcasts `echo` and
feeds this player's own echo into `echo_received`). -/
inductive BrachaEvent where
  | echo : Nat → BrachaEvent
  | ready : Nat → BrachaEvent
  | send : BrachaEvent
deriving DecidableEq

/-- One event dispatched to the matching handler.  The two counters of
the result are the number of `ready` disseminations and of deliveries. -/
def bracha_step (n t self_id : Nat) (s : BrachaState) :
    BrachaEvent → BrachaState × Nat × Nat
  | BrachaEvent.echo p => echo_received n t self_id p s
  | BrachaEvent.ready p => ready_received n t self_id p s
  | BrachaEvent.send => echo_received n t self_id self_id s

/-- A sequence of events processed by the `_broadcast` handlers,
accumulating the total numbers of `ready` disseminations and of
deliveries. -/
def bracha_run (n t self_id : Nat) (s : BrachaState) :
    List BrachaEvent → BrachaState × Nat × Nat
  | [] => (s, 0, 0)
  | e :: evs =>
      let r := bracha_step n t self_id s e
      let rest := bracha_run n t self_id r.1 evs
      (rest.1, r.2.1 + rest.2.1, r.2.2 + rest.2.2)

/-! ## Open -/

/-- Modelled from the spec: `shamir.recombine(points)` -- `viff/shamir.py`
is not among the provided sources.  Following spec section 4.1, it
Lagrange-interpolates the unique polynomial through the given points and
evaluates it at 0: the sum over the points of `y_i` times the Lagrange
basis value `prod_(j is not i) x_j / (x_j - x_i)`. -/
def recombine {F : Type} [Field F] [DecidableEq F] (points : List (F × F)) : F :=
  (points.map (fun pi =>
    pi.2 * ((points.filter (fun pj => pj.1 ≠ pi.1)).map
      (fun pj => pj.1 / (pj.1 - pi.1))).prod)).sum

/-- The slice of `Runtime` state used by `open`: this player's id, the
default threshold, and the ids of all players. -/
structure OpenState where
  id : Nat
  threshold : Nat
  players : List Nat
deriving DecidableEq

/-- Embeds `Runtime.open` (`runtime.py` lines 697-737) as a function of
the runtime state, the optional `receivers` and `threshold` arguments
(with their defaults `self.players.keys()` and `self.threshold`), this
player's resolved share value, and the share values the peers eventually
send (`incoming p` is the value received from peer `p`).  The result is
the list of `(receiver, value)` share messages this player sends and the
value the returned share resolves to -- `none` when this player is not a
receiver, in which case `open` returns `None`.  A receiver recombines the
pairs `(field(peer_id), value)` of the first `threshold + 1` players to
resolve (`_recombine` waits for `threshold + 1` shares via a `ShareList`
and recombines them); the embedding takes the players in list order. -/
def runtime_open {F : Type} [Field F] [DecidableEq F] (s : OpenState)
    (receivers : Option (List Nat)) (threshold : Option Nat)
    (own_share : F) (incoming : Nat → F) : List (Nat × F) × Option F :=
  let recv := receivers.getD s.players
  let th := threshold.getD s.threshold
  let sends := (recv.filter (fun p => p ≠ s.id)).map (fun p => (p, own_share))
  if s.id ∈ recv then
    let pairs := s.players.map (fun (p : Nat) =>
      ((p : F), if p = s.id then own_share else incoming p))
    (sends, some (recombine (pairs.take (th + 1))))
  else
    (sends, none)

/-! ## Theorems -/

/-- C1: Active-security multiplication is algebraically correct: for
every field and all field elements `x`, `y`, `a`, `b`, `c` with
`c = a*b`, the value `d*e + d*b + e*a + c` computed by the `finish_mul`
callback of `ActiveRuntime.mul`, where `d = x - a` and `e = y - b`,
equals `x*y`. -/
theorem finish_mul_correct {F : Type} [Field F] (x y a b c : F)
    (hc : c = a * b) : finish_mul x y a b c = x * y := by
  subst hc
  simp only [finish_mul]
  ring

/-- Witness for `finish_mul_correct` at `F = ℚ`, `x = 3`, `y = 4`,
`a = 1`, `b = 2`, `c = 2`. -/
theorem finish_mul_correct_witness :
    (2 : ℚ) = 1 * 2 ∧ finish_mul (3 : ℚ) 4 1 2 2 = 3 * 4 :=
  ⟨by norm_num, finish_mul_correct 3 4 1 2 2 (by norm_num)⟩

/-- C7: `Runtime.xor` computes exclusive-or correctly: on the GF256
branch it returns the sum `a + b`, and for any other field it returns
`a + b - 2ab`; for operand values in `{0, 1}` over a prime field of odd
modulus the result equals the logical xor of the operands. -/
theorem runtime_xor_correct (p : Nat) [hp : Fact p.Prime] (hodd : p % 2 = 1)
    (a b : ZMod p) (ha : a = 0 ∨ a = 1) (hb : b = 0 ∨ b = 1) :
    (∀ (F : Type) (inst : CommRing F) (x y : F),
        @runtime_xor F inst true x y = x + y)
    ∧ runtime_xor false a b = (if a = b then 0 else 1) := by
  constructor
  · intro F inst x y
    rfl
  · have h1 : (1 : ZMod p) ≠ 0 := one_ne_zero
    rcases ha with rfl | rfl <;> rcases hb with rfl | rfl <;>
      simp [runtime_xor, h1, Ne.symm h1] <;> ring

/-- Witness for `runtime_xor_correct` at `p = 7`, `a = b = 1`. -/
theorem runtime_xor_correct_witness :
    7 % 2 = 1 ∧ runtime_xor false (1 : ZMod 7) 1
      = (if (1 : ZMod 7) = 1 then 0 else 1) := by
  haveI : Fact (Nat.Prime 7) := ⟨by norm_num⟩
  exact ⟨by decide,
    (runtime_xor_correct 7 (by decide) 1 1 (Or.inr rfl) (Or.inr rfl)).2⟩

/-- C2: a callback registered via `BasicRuntime.schedule_callback` runs
with the program counter equal to the snapshot taken at registration
(its outcome, value or exception, is that of the body evaluated on the
fire-time state with the counter replaced by the snapshot -- not by the
counter current at firing), and after the body finishes, normally or
exceptionally, the program counter is restored to the value it had when
the callback fired. -/
theorem schedule_callback_pc_snapshot {A : Type}
    (func : RTState → RTState × Except String A) (s_reg s_fire : RTState) :
    (schedule_callback s_reg func s_fire).1.program_counter
        = s_fire.program_counter
    ∧ (schedule_callback s_reg func s_fire).2
        = (func { s_fire with
            program_counter := s_reg.program_counter }).2 :=
  ⟨rfl, rfl⟩

/-- C3: entering a method wrapped by `increment_pc` increments the last
program-counter entry and appends a fresh zero, and on every exit path
-- for every method result, returned value or exception -- the appended
entry is popped; for a method that (like every wrapped method) leaves
the entries below its own appended level unchanged, the wrapper
therefore leaves the program counter at its original length with only
its last entry incremented by one. -/
theorem increment_pc_scoped {A : Type}
    (method : RTState → RTState × Except String A) (s : RTState)
    (q : List Nat) (l : Nat) (hpc : s.program_counter = q ++ [l])
    (hmethod : ((method { s with program_counter := q ++ [l + 1, 0] }).1.program_counter).dropLast = q ++ [l + 1]) :
    (∀ m2 : RTState → RTState × Except String A,
      (inc_pc_wrapper m2 s).1.program_counter
        = ((m2 { s with program_counter := q ++ [l + 1, 0] }).1.program_counter).dropLast)
    ∧ (inc_pc_wrapper method s).1.program_counter = q ++ [l + 1] := by
  have hdrop : s.program_counter.dropLast = q := by
    rw [hpc]; exact List.dropLast_concat
  have hlast : s.program_counter.getLastD 0 = l := by
    rw [hpc, List.getLastD_eq_getLast?, List.getLast?_concat]
    rfl
  have hentry : s.program_counter.dropLast
      ++ [s.program_counter.getLastD 0 + 1, 0] = q ++ [l + 1, 0] := by
    rw [hdrop, hlast]
  constructor
  · intro m2
    simp only [inc_pc_wrapper, hentry]
  · simp only [inc_pc_wrapper, hentry, hmethod]

/-- Witness for `increment_pc_scoped`: the identity method entered at
program counter `[5]` leaves the counter at `[6]`. -/
theorem increment_pc_scoped_witness :
    (RTState.mk [5]).program_counter = [] ++ [5]
    ∧ (inc_pc_wrapper (fun t => (t, Except.ok (0 : Nat)))
        (RTState.mk [5])).1.program_counter = [] ++ [5 + 1] :=
  ⟨rfl, (increment_pc_scoped (fun t => (t, Except.ok 0)) (RTState.mk [5])
      [] 5 rfl rfl).2⟩

/-- C8: a method wrapped by the `preprocess` decorator returns the pool
entry for the current program-counter tuple whenever the pool contains
one, without calling the underlying generator (the result is the same
for every wrapped method); only when the pool lacks an entry for that
counter does it append the counter to the `_needed_data` record under
the `(generator name, arguments)` key and fall back to invoking the
original method. -/
theorem preprocess_wrapper_spec {V A : Type} [DecidableEq A]
    (generator : String) (method : A → PPState V A → PPState V A × V)
    (args : A) (s : PPState V A) :
    (∀ v, s.pool s.program_counter = some v →
      ∀ other : A → PPState V A → PPState V A × V,
        preprocess_wrapper generator other args s = (s, v))
    ∧ (s.pool s.program_counter = none →
        preprocess_wrapper generator method args s
          = method args (record_need generator args s)
        ∧ (record_need generator args s).needed_data (generator, args)
            = s.needed_data (generator, args) ++ [s.program_counter]) := by
  constructor
  · intro v hv other
    simp [preprocess_wrapper, hv]
  · intro hv
    refine ⟨by simp [preprocess_wrapper, hv], ?_⟩
    simp [record_need]

/-- Witness for `preprocess_wrapper_spec`: a pool holding `42` at the
counter `[0]` makes the wrapper return `42` with a generator that would
return `0`. -/
theorem preprocess_wrapper_spec_witness :
    (PPState.mk (V := Nat) (A := Nat) [0]
        (fun pc => if pc = [0] then some 42 else none) (fun _ => [])).pool
      (PPState.mk (V := Nat) (A := Nat) [0]
        (fun pc => if pc = [0] then some 42 else none)
        (fun _ => [])).program_counter = some 42
    ∧ preprocess_wrapper "generate_triples"
        (fun (_ : Nat) (t : PPState Nat Nat) => (t, 0)) 0
        (PPState.mk [0] (fun pc => if pc = [0] then some 42 else none)
          (fun _ => []))
      = (PPState.mk [0] (fun pc => if pc = [0] then some 42 else none)
          (fun _ => []), 42) :=
  ⟨rfl, (preprocess_wrapper_spec "generate_triples"
      (fun (_ : Nat) (t : PPState Nat Nat) => (t, 0)) 0
      (PPState.mk [0] (fun pc => if pc = [0] then some 42 else none)
        (fun _ => []))).1 42 rfl
    (fun (_ : Nat) (t : PPState Nat Nat) => (t, 0))⟩

/-- C9: configuration/usage errors are rejected synchronously at call
time: `BasicRuntime.__init__` fails its assertion for every threshold
at most 0 (no runtime state is produced) and succeeds for every positive
threshold; `prss_share` fails its assertion immediately -- sending no
message -- when no element is given although this player is an inputter,
or an element is given although this player is not an inputter. -/
theorem sync_precondition_checks {F : Type} (player_id self_id : Nat)
    (threshold : Int) (players inputters : List Nat)
    (element : Option F) (correction : F) :
    (threshold ≤ 0 →
      basic_runtime_init player_id threshold
        = Except.error "Must use a positive threshold.")
    ∧ (0 < threshold →
        ∃ st, basic_runtime_init player_id threshold = Except.ok st)
    ∧ (element = none → self_id ∈ inputters →
        prss_share self_id players inputters element correction
          = Except.error "No element given.")
    ∧ (∀ e : F, element = some e → self_id ∉ inputters →
        prss_share self_id players inputters element correction
          = Except.error "Element given, but we are not sharing?") := by
  refine ⟨fun h => ?_, fun h => ?_, fun he hin => ?_, fun e he hin => ?_⟩
  · simp [basic_runtime_init, not_lt.mpr h]
  · refine ⟨BRState.mk player_id threshold [0] 1, ?_⟩
    simp [basic_runtime_init, h]
  · subst he
    simp [prss_share, hin]
  · subst he
    simp [prss_share, hin]

/-- C4 counterexample: starting from an empty `incoming_data` mapping,
two `stringReceived` arrivals for the same key with no registered waiter
leave the key's deque holding two buffered payloads, so a key is not
limited to at most one entry (one payload or one waiter). -/
theorem incoming_data_two_buffered :
    ¬ at_most_one_entry
        (incoming_run (incoming_empty Nat Nat Nat)
          [IDEvent.arrive 0 5, IDEvent.arrive 0 6]) := by
  intro h
  have h0 := h 0
  have hlen : (incoming_run (incoming_empty Nat Nat Nat)
      [IDEvent.arrive 0 5, IDEvent.arrive 0 6]) 0
      = [Entry.data 5, Entry.data 6] := by
    simp [incoming_run, incoming_step, stringReceived, incoming_empty,
      Function.update]
  rw [hlen] at h0
  simp at h0

/-- Updating one key with a homogeneous deque preserves homogeneity of
the mapping. -/
theorem kind_homogeneous_update {K D W : Type} [DecidableEq K]
    (m : IncomingData K D W) (hm : kind_homogeneous m) (k : K)
    (l : List (Entry D W))
    (hl : (∀ e ∈ l, e.isData = true) ∨ (∀ e ∈ l, e.isData = false)) :
    kind_homogeneous (Function.update m k l) := by
  intro k2
  by_cases hk : k2 = k
  · subst hk
    rw [Function.update_same]
    exact hl
  · rw [Function.update_noteq hk]
    exact hm k2

/-- One router event preserves the homogeneity of every key's deque. -/
theorem incoming_step_homogeneous {K D W : Type} [DecidableEq K]
    {m : IncomingData K D W} (hm : kind_homogeneous m)
    (ev : IDEvent K D W) : kind_homogeneous (incoming_step m ev) := by
  cases ev with
  | arrive k d =>
      rcases h : m k with _ | ⟨e, rest⟩
      · simp only [incoming_step, stringReceived, h]
        exact kind_homogeneous_update m hm k _
          (Or.inl (by simp [h, Entry.isData]))
      · cases e with
        | data d0 =>
            simp only [incoming_step, stringReceived, h]
            refine kind_homogeneous_update m hm k _ (Or.inl ?_)
            have hd : ∀ e ∈ m k, e.isData = true := by
              rcases hm k with hall | hall
              · exact hall
              · exfalso
                have := hall (Entry.data d0) (by rw [h]; exact List.mem_cons_self _ _)
                simp [Entry.isData] at this
            intro e he
            rcases List.mem_append.mp he with h1 | h1
            · exact hd e (by rw [h]; exact h1)
            · simp only [List.mem_singleton] at h1
              subst h1
              rfl
        | waiter w =>
            simp only [incoming_step, stringReceived, h]
            refine kind_homogeneous_update m hm k _ (Or.inr ?_)
            have hw : ∀ e ∈ m k, e.isData = false := by
              rcases hm k with hall | hall
              · exfalso
                have := hall (Entry.waiter w) (by rw [h]; exact List.mem_cons_self _ _)
                simp [Entry.isData] at this
              · exact hall
            intro e he
            exact hw e (by rw [h]; exact List.mem_cons_of_mem _ he)
  | expect k w =>
      rcases h : m k with _ | ⟨e, rest⟩
      · simp only [incoming_step, expect_data, h]
        exact kind_homogeneous_update m hm k _
          (Or.inr (by simp [h, Entry.isData]))
      · cases e with
        | data d0 =>
            simp only [incoming_step, expect_data, h]
            refine kind_homogeneous_update m hm k _ (Or.inl ?_)
            have hd : ∀ e ∈ m k, e.isData = true := by
              rcases hm k with hall | hall
              · exact hall
              · exfalso
                have := hall (Entry.data d0) (by rw [h]; exact List.mem_cons_self _ _)
                simp [Entry.isData] at this
            intro e he
            exact hd e (by rw [h]; exact List.mem_cons_of_mem _ he)
        | waiter w0 =>
            simp only [incoming_step, expect_data, h]
            refine kind_homogeneous_update m hm k _ (Or.inr ?_)
            have hw : ∀ e ∈ m k, e.isData = false := by
              rcases hm k with hall | hall
              · exfalso
                have := hall (Entry.waiter w0) (by rw [h]; exact List.mem_cons_self _ _)
                simp [Entry.isData] at this
              · exact hall
            intro e he
            rcases List.mem_append.mp he with h1 | h1
            · exact hw e (by rw [h]; exact h1)
            · simp only [List.mem_singleton] at h1
              subst h1
              rfl

/-- C4 (amended): in every state of a `ShareExchanger.incoming_data`
mapping reachable by `stringReceived` and `_expect_data` events from the
empty mapping, each key's deque is homogeneous -- it holds only buffered
payloads or only pending waiters, never both kinds simultaneously
(several entries of the same kind may be queued, in FIFO order). -/
theorem incoming_data_kind_homogeneous (K D W : Type) [DecidableEq K]
    (evs : List (IDEvent K D W)) :
    kind_homogeneous (incoming_run (incoming_empty K D W) evs) := by
  suffices h : ∀ m : IncomingData K D W, kind_homogeneous m →
      kind_homogeneous (incoming_run m evs) by
    exact h _ (fun k => Or.inl (by simp [incoming_empty]))
  induction evs with
  | nil => exact fun m hm => hm
  | cons e evs ih =>
      intro m hm
      exact ih _ (incoming_step_homogeneous hm e)

/-- A `ShareList` whose deferred has already been called never fires
again, whatever events still arrive. -/
theorem share_list_run_called {V : Type} (evs : List (Nat × Bool × V))
    (r : List (Option (Bool × V))) (m : Int) :
    (share_list_run (SLState.mk r m true) evs).2 = [] := by
  induction evs generalizing r m with
  | nil => rfl
  | cons e evs ih =>
      simp only [share_list_run, callback_fired]
      rw [if_neg (by simp)]
      simpa using ih (r.set e.1 (some (e.2.1, e.2.2))) (m - 1)

/-- A `ShareList` still waiting for `m ≥ 1` shares fires exactly once
within the next `m` events, with the results stored by the first `m`
of them. -/
theorem share_list_run_fires {V : Type} (evs : List (Nat × Bool × V))
    (r : List (Option (Bool × V))) (m : Nat) (hm : 0 < m)
    (hlen : m ≤ evs.length) :
    (share_list_run (SLState.mk r (m : Int) false) evs).2
      = [apply_events r (evs.take m)] := by
  induction evs generalizing r m with
  | nil =>
      exfalso
      simp only [List.length_nil, Nat.le_zero] at hlen
      omega
  | cons e evs ih =>
      obtain ⟨k, rfl⟩ : ∃ k, m = k + 1 := ⟨m - 1, (Nat.succ_pred_eq_of_pos hm).symm⟩
      by_cases hk : k = 0
      · subst hk
        simp only [share_list_run, callback_fired]
        rw [if_pos (by norm_num)]
        simpa [List.take_succ_cons, apply_events] using
          share_list_run_called evs (r.set e.1 (some (e.2.1, e.2.2))) 0
      · simp only [share_list_run, callback_fired]
        rw [if_neg (by push_cast; simp; omega)]
        have hstep := ih (r.set e.1 (some (e.2.1, e.2.2))) k
          (Nat.pos_of_ne_zero hk)
          (by simp only [List.length_cons] at hlen; omega)
        rw [show ((k + 1 : Nat) : Int) - 1 = ((k : Nat) : Int) by push_cast; ring]
        simp only [List.take_succ_cons, apply_events, List.foldl_cons]
        simpa [apply_events] using hstep

/-- A `ShareList` still waiting for more shares than events arrive does
not fire. -/
theorem share_list_run_short {V : Type} (evs : List (Nat × Bool × V))
    (r : List (Option (Bool × V))) (m : Nat) (hlen : evs.length < m) :
    (share_list_run (SLState.mk r (m : Int) false) evs).2 = [] := by
  induction evs generalizing r m with
  | nil => rfl
  | cons e evs ih =>
      have hm2 : 2 ≤ m := by
        simp only [List.length_cons] at hlen
        omega
      simp only [share_list_run, callback_fired]
      rw [if_neg (by simp; omega)]
      rw [show (m : Int) - 1 = ((m - 1 : Nat) : Int) by omega]
      have := ih (r.set e.1 (some (e.2.1, e.2.2))) (m - 1)
        (by simp only [List.length_cons] at hlen; omega)
      simpa using this

/-- Storing events that never touch slot `i` leaves slot `i`
unchanged. -/
theorem apply_events_getD_of_not_mem {V : Type} (evs : List (Nat × Bool × V))
    (r : List (Option (Bool × V))) (i : Nat) (h : ∀ e ∈ evs, e.1 ≠ i) :
    (apply_events r evs).getD i none = r.getD i none := by
  induction evs generalizing r with
  | nil => rfl
  | cons e evs ih =>
      have hstep : apply_events r (e :: evs)
          = apply_events (r.set e.1 (some (e.2.1, e.2.2))) evs := rfl
      rw [hstep, ih _ (fun e2 he2 => h e2 (List.mem_cons_of_mem _ he2))]
      rw [List.getD_eq_getElem?_getD, List.getD_eq_getElem?_getD,
        List.getElem?_set_ne (h e (List.mem_cons_self _ _))]

/-- For events with pairwise-distinct indices, slot `i` after storing
them holds the pair of the unique event for index `i` if there is one,
and its original content otherwise. -/
theorem apply_events_getD_find {V : Type} (evs : List (Nat × Bool × V))
    (r : List (Option (Bool × V))) (i : Nat) (hi : i < r.length)
    (hdist : evs.Pairwise (fun a b => a.1 ≠ b.1)) :
    (apply_events r evs).getD i none
      = (evs.find? (fun e => e.1 == i)).elim (r.getD i none)
          (fun e => some (e.2.1, e.2.2)) := by
  induction evs generalizing r with
  | nil => rfl
  | cons e evs ih =>
      have hstep : apply_events r (e :: evs)
          = apply_events (r.set e.1 (some (e.2.1, e.2.2))) evs := rfl
      rw [hstep]
      by_cases hei : e.1 = i
      · have hfind : (e :: evs).find? (fun e2 => e2.1 == i) = some e := by
          simp [List.find?_cons, hei]
        rw [hfind]
        have hrest : ∀ e2 ∈ evs, e2.1 ≠ i := by
          intro e2 he2
          have := (List.pairwise_cons.mp hdist).1 e2 he2
          rw [hei] at this
          exact fun hc => this hc.symm
        rw [apply_events_getD_of_not_mem evs _ i hrest]
        rw [List.getD_eq_getElem?_getD]
        rw [hei, List.getElem?_set_self hi]
        rfl
      · have hfind : (e :: evs).find? (fun e2 => e2.1 == i)
            = evs.find? (fun e2 => e2.1 == i) := by
          simp [List.find?_cons, hei]
        rw [hfind]
        have hset : (r.set e.1 (some (e.2.1, e.2.2))).getD i none
            = r.getD i none := by
          rw [List.getD_eq_getElem?_getD, List.getD_eq_getElem?_getD,
            List.getElem?_set_ne hei]
        rw [ih _ (by simpa using hi) (List.pairwise_cons.mp hdist).2, hset]

/-- C5: for every non-empty share list and threshold `T` with
`0 < T ≤ N`, the `ShareList` fires exactly at the `T`-th constituent
resolution event (and never again), and the fired result list holds, at
position `i`, the `(success, value)` pair of the event for share `i`
when share `i` resolved among the first `T`, and `None` at every other
position, in original index order. -/
theorem share_list_threshold_spec {V : Type} (n T : Nat)
    (evs : List (Nat × Bool × V)) (hT : 0 < T) (hTn : T ≤ n)
    (hidx : ∀ e ∈ evs, e.1 < n)
    (hdist : evs.Pairwise (fun a b => a.1 ≠ b.1)) :
    (∀ k, k ≤ evs.length →
      ((share_list_run (share_list_init V n (some T)) (evs.take k)).2 ≠ []
        ↔ T ≤ k))
    ∧ (evs.length < T →
        (share_list_run (share_list_init V n (some T)) evs).2 = [])
    ∧ (T ≤ evs.length →
        (share_list_run (share_list_init V n (some T)) evs).2
          = [apply_events (List.replicate n none) (evs.take T)]
        ∧ ∀ i, i < n →
          (apply_events (List.replicate n none) (evs.take T)).getD i none
            = ((evs.take T).find? (fun e => e.1 == i)).map
                (fun e => (e.2.1, e.2.2))) := by
  have hinit : share_list_init V n (some T)
      = SLState.mk (List.replicate n none) (T : Int) false := rfl
  refine ⟨?_, ?_, ?_⟩
  · intro k hk
    constructor
    · intro hne
      by_contra hlt
      push_neg at hlt
      exact hne (by
        rw [hinit]
        exact share_list_run_short (evs.take k) _ T
          (by rw [List.length_take]; omega))
    · intro hTk
      rw [hinit, share_list_run_fires (evs.take k) _ T hT
        (by rw [List.length_take]; omega)]
      simp
  · intro hlt
    rw [hinit]
    exact share_list_run_short evs _ T hlt
  · intro hTk
    refine ⟨by rw [hinit]; exact share_list_run_fires evs _ T hT hTk, ?_⟩
    intro i hi
    rw [apply_events_getD_find (evs.take T) _ i
      (by rw [List.length_replicate]; exact hi)
      (hdist.sublist (List.take_sublist T evs))]
    have hrep : (List.replicate n (none : Option (Bool × V))).getD i none
        = none := by
      rw [List.getD_eq_getElem?_getD, List.getElem?_replicate]
      split_ifs <;> rfl
    rw [hrep]
    cases (evs.take T).find? (fun e => e.1 == i) with
    | none => rfl
    | some e => rfl

/-- Witness for `share_list_threshold_spec`: three shares with threshold
2; shares 0 and 2 resolve, the aggregate fires at the second resolution
with the documented `[(True, 10), None, (True, 20)]` layout. -/
theorem share_list_threshold_spec_witness :
    (0 < 2 ∧ 2 ≤ 3 ∧ (∀ e ∈ [(0, true, 10), (2, true, 20)], e.1 < 3)
      ∧ List.Pairwise (fun (a b : Nat × Bool × Nat) => a.1 ≠ b.1)
          [(0, true, 10), (2, true, 20)])
    ∧ (2 ≤ ([(0, true, 10), (2, true, 20)] : List (Nat × Bool × Nat)).length →
        (share_list_run (share_list_init Nat 3 (some 2))
            [(0, true, 10), (2, true, 20)]).2
          = [apply_events (List.replicate 3 none)
              (([(0, true, 10), (2, true, 20)] : List (Nat × Bool × Nat)).take 2)]
        ∧ ∀ i, i < 3 →
          (apply_events (List.replicate 3 none)
              (([(0, true, 10), (2, true, 20)] : List (Nat × Bool × Nat)).take 2)).getD i none
            = ((([(0, true, 10), (2, true, 20)] : List (Nat × Bool × Nat)).take 2).find?
                (fun e => e.1 == i)).map (fun e => (e.2.1, e.2.2))) :=
  ⟨⟨by decide, by decide, by decide, by decide⟩,
   (share_list_threshold_spec 3 2 [(0, true, 10), (2, true, 20)]
      (by decide) (by decide) (by decide) (by decide)).2.2⟩

/-- Witness for `sync_precondition_checks`: threshold `0` is rejected,
and a call with no element by inputter `1` is rejected. -/
theorem sync_precondition_checks_witness :
    ((0 : Int) ≤ 0 →
      basic_runtime_init 1 0
        = Except.error "Must use a positive threshold.")
    ∧ ((1 : Nat) ∈ [1, 2, 3] →
        prss_share (F := ZMod 7) 1 [1, 2, 3] [1, 2, 3] none 0
          = Except.error "No element given.") :=
  ⟨fun h => (sync_precondition_checks (F := ZMod 7) 1 1 0 [1, 2, 3]
      [1, 2, 3] none 0).1 h,
   fun h => (sync_precondition_checks (F := ZMod 7) 1 1 0 [1, 2, 3]
      [1, 2, 3] none 0).2.2.1 rfl h⟩

/-- `ready_received` for a peer already recorded does nothing. -/
theorem ready_received_mem (n t self_id p : Nat) (s : BrachaState)
    (hp : p ∈ s.ready_ids) : ready_received n t self_id p s = (s, 0, 0) := by
  rw [ready_received]
  simp [hp]

/-- `ready_received` on a state that has already sent `ready` never
sends again: it records the peer if new and delivers exactly when the
distinct-ready count reaches `2t+1` and nothing was delivered yet. -/
theorem ready_received_of_sent (n t self_id p : Nat) (s : BrachaState)
    (hs : s.sent_ready = true) :
    ready_received n t self_id p s
      = if p ∈ s.ready_ids then (s, 0, 0)
        else if s.ready_ids.length + 1 = 2 * t + 1 ∧ s.delivered = false then
          ({ s with ready_ids := s.ready_ids ++ [p], delivered := true }, 0, 1)
        else ({ s with ready_ids := s.ready_ids ++ [p] }, 0, 0) := by
  rw [ready_received]
  by_cases hp : p ∈ s.ready_ids
  · simp [hp]
  · rw [if_neg hp, if_neg hp]
    rw [dif_neg (by simp [hs])]
    simp [List.length_append]

/-- Unfolding of the ready-dissemination branch of `ready_received`. -/
theorem ready_received_send_branch (n t self_id p : Nat) (s : BrachaState)
    (hp : p ∉ s.ready_ids)
    (h1 : (s.ready_ids ++ [p]).length = t + 1) (h2 : s.sent_ready = false) :
    ready_received n t self_id p s
      = ((ready_received n t self_id self_id
            { s with ready_ids := s.ready_ids ++ [p], sent_ready := true }).1,
         (ready_received n t self_id self_id
            { s with ready_ids := s.ready_ids ++ [p], sent_ready := true }).2.1 + 1,
         (ready_received n t self_id self_id
            { s with ready_ids := s.ready_ids ++ [p], sent_ready := true }).2.2) := by
  rw [ready_received, if_neg hp, dif_pos ⟨h1, h2⟩]

/-- Unfolding of `ready_received` when no ready is disseminated. -/
theorem ready_received_other (n t self_id p : Nat) (s : BrachaState)
    (hp : p ∉ s.ready_ids)
    (h1 : ¬ ((s.ready_ids ++ [p]).length = t + 1 ∧ s.sent_ready = false)) :
    ready_received n t self_id p s
      = if (s.ready_ids ++ [p]).length = 2 * t + 1 ∧ s.delivered = false then
          ({ s with ready_ids := s.ready_ids ++ [p], delivered := true }, 0, 1)
        else ({ s with ready_ids := s.ready_ids ++ [p] }, 0, 0) := by
  rw [ready_received, if_neg hp, dif_neg h1]

/-- The send/deliver accounting of one `ready_received` call: at most
one ready dissemination, happening exactly when the distinct-ready count
reaches `t+1` with the sent-ready flag still clear (after which this
player itself is counted); at most one delivery, happening exactly when
the distinct-ready count reaches `2t+1` with nothing delivered yet; and
the two flags are preserved when nothing is sent or delivered. -/
theorem ready_received_facts (n t self_id p : Nat) (s : BrachaState) :
    (ready_received n t self_id p s).2.1 ≤ 1
    ∧ ((ready_received n t self_id p s).2.1 = 0 →
        (ready_received n t self_id p s).1.sent_ready = s.sent_ready)
    ∧ ((ready_received n t self_id p s).2.1 = 1 →
        s.sent_ready = false
        ∧ (ready_received n t self_id p s).1.sent_ready = true
        ∧ s.ready_ids.length + 1 = t + 1
        ∧ self_id ∈ (ready_received n t self_id p s).1.ready_ids)
    ∧ (ready_received n t self_id p s).2.2 ≤ 1
    ∧ ((ready_received n t self_id p s).2.2 = 0 →
        (ready_received n t self_id p s).1.delivered = s.delivered)
    ∧ ((ready_received n t self_id p s).2.2 = 1 →
        s.delivered = false
        ∧ (ready_received n t self_id p s).1.delivered = true
        ∧ (ready_received n t self_id p s).1.ready_ids.length = 2 * t + 1) := by
  by_cases hp : p ∈ s.ready_ids
  · rw [ready_received_mem n t self_id p s hp]
    simp
  · by_cases hc : (s.ready_ids ++ [p]).length = t + 1 ∧ s.sent_ready = false
    · rw [ready_received_send_branch n t self_id p s hp hc.1 hc.2,
        ready_received_of_sent n t self_id self_id _ rfl]
      have hlen : s.ready_ids.length + 1 = t + 1 := by
        simpa using hc.1
      by_cases hself : self_id ∈ s.ready_ids ++ [p]
      · rw [if_pos (by simpa using hself)]
        refine ⟨by simp, by simp, fun _ => ⟨hc.2, rfl, hlen, by simpa using hself⟩,
          by simp, fun _ => rfl, by simp⟩
      · rw [if_neg (by simpa using hself)]
        by_cases hd : (s.ready_ids ++ [p]).length + 1 = 2 * t + 1
            ∧ s.delivered = false
        · rw [if_pos (by simpa using hd)]
          refine ⟨by simp, by simp, fun _ => ⟨hc.2, rfl, hlen, ?_⟩,
            by simp, by simp, fun _ => ⟨hd.2, rfl, ?_⟩⟩
          · simp
          · simpa using hd.1
        · rw [if_neg (by simpa using hd)]
          refine ⟨by simp, by simp, fun _ => ⟨hc.2, rfl, hlen, ?_⟩,
            by simp, fun _ => rfl, by simp⟩
          simp
    · rw [ready_received_other n t self_id p s hp hc]
      by_cases hd : (s.ready_ids ++ [p]).length = 2 * t + 1 ∧ s.delivered = false
      · rw [if_pos hd]
        refine ⟨by simp, fun _ => rfl, by simp, by simp, by simp,
          fun _ => ⟨hd.2, rfl, by simpa using hd.1⟩⟩
      · rw [if_neg hd]
        exact ⟨by simp, fun _ => rfl, by simp, by simp, fun _ => rfl, by simp⟩

/-- The send/deliver accounting of one `echo_received` call: at most one
ready dissemination, happening exactly when the distinct-echo count
reaches the quorum `ceil((n+t+1)/2)` with the sent-ready flag still
clear (this player then counting its own ready immediately); deliveries
only via the self-counted ready reaching `2t+1`. -/
theorem echo_received_facts (n t self_id p : Nat) (s : BrachaState) :
    (echo_received n t self_id p s).2.1 ≤ 1
    ∧ ((echo_received n t self_id p s).2.1 = 0 →
        (echo_received n t self_id p s).1.sent_ready = s.sent_ready)
    ∧ ((echo_received n t self_id p s).2.1 = 1 →
        s.sent_ready = false
        ∧ (echo_received n t self_id p s).1.sent_ready = true
        ∧ echo_threshold n t ≤ (echo_received n t self_id p s).1.echo_ids.length
        ∧ self_id ∈ (echo_received n t self_id p s).1.ready_ids)
    ∧ (echo_received n t self_id p s).2.2 ≤ 1
    ∧ ((echo_received n t self_id p s).2.2 = 0 →
        (echo_received n t self_id p s).1.delivered = s.delivered)
    ∧ ((echo_received n t self_id p s).2.2 = 1 →
        s.delivered = false
        ∧ (echo_received n t self_id p s).1.delivered = true
        ∧ (echo_received n t self_id p s).1.ready_ids.length = 2 * t + 1) := by
  by_cases hp : p ∈ s.echo_ids
  · simp [echo_received, hp]
  · by_cases hc : echo_threshold n t ≤ (s.echo_ids ++ [p]).length
        ∧ s.sent_ready = false
    · have hunfold : echo_received n t self_id p s
          = ((ready_received n t self_id self_id
                { s with echo_ids := s.echo_ids ++ [p], sent_ready := true }).1,
             (ready_received n t self_id self_id
                { s with echo_ids := s.echo_ids ++ [p], sent_ready := true }).2.1 + 1,
             (ready_received n t self_id self_id
                { s with echo_ids := s.echo_ids ++ [p], sent_ready := true }).2.2) := by
        rw [echo_received, if_neg hp, if_pos hc]
      rw [hunfold, ready_received_of_sent n t self_id self_id _ rfl]
      by_cases hself : self_id ∈ s.ready_ids
      · rw [if_pos (by simpa using hself)]
        refine ⟨by simp, by simp, fun _ => ⟨hc.2, rfl, ?_, by simpa using hself⟩,
          by simp, fun _ => rfl, by simp⟩
        simpa using hc.1
      · rw [if_neg (by simpa using hself)]
        by_cases hd : s.ready_ids.length + 1 = 2 * t + 1 ∧ s.delivered = false
        · rw [if_pos (by simpa using hd)]
          refine ⟨by simp, by simp,
            fun _ => ⟨hc.2, rfl, by simpa using hc.1, by simp⟩,
            by simp, by simp, fun _ => ⟨hd.2, rfl, by simpa using hd.1⟩⟩
        · rw [if_neg (by simpa using hd)]
          refine ⟨by simp, by simp,
            fun _ => ⟨hc.2, rfl, by simpa using hc.1, by simp⟩,
            by simp, fun _ => rfl, by simp⟩
    · have hunfold : echo_received n t self_id p s
          = ({ s with echo_ids := s.echo_ids ++ [p] }, 0, 0) := by
        rw [echo_received, if_neg hp, if_neg hc]
      rw [hunfold]
      exact ⟨by simp, fun _ => rfl, by simp, by simp, fun _ => rfl, by simp⟩

/-- The send/deliver accounting of one dispatched event. -/
theorem bracha_step_facts (n t self_id : Nat) (s : BrachaState)
    (e : BrachaEvent) :
    (bracha_step n t self_id s e).2.1 ≤ 1
    ∧ ((bracha_step n t self_id s e).2.1 = 0 →
        (bracha_step n t self_id s e).1.sent_ready = s.sent_ready)
    ∧ ((bracha_step n t self_id s e).2.1 = 1 →
        s.sent_ready = false ∧ (bracha_step n t self_id s e).1.sent_ready = true)
    ∧ (bracha_step n t self_id s e).2.2 ≤ 1
    ∧ ((bracha_step n t self_id s e).2.2 = 0 →
        (bracha_step n t self_id s e).1.delivered = s.delivered)
    ∧ ((bracha_step n t self_id s e).2.2 = 1 →
        s.delivered = false
        ∧ (bracha_step n t self_id s e).1.delivered = true
        ∧ (bracha_step n t self_id s e).1.ready_ids.length = 2 * t + 1) := by
  cases e with
  | echo p =>
      have h := echo_received_facts n t self_id p s
      exact ⟨h.1, h.2.1, fun h1 => ⟨(h.2.2.1 h1).1, (h.2.2.1 h1).2.1⟩,
        h.2.2.2.1, h.2.2.2.2.1, h.2.2.2.2.2⟩
  | ready p =>
      have h := ready_received_facts n t self_id p s
      exact ⟨h.1, h.2.1, fun h1 => ⟨(h.2.2.1 h1).1, (h.2.2.1 h1).2.1⟩,
        h.2.2.2.1, h.2.2.2.2.1, h.2.2.2.2.2⟩
  | send =>
      have h := echo_received_facts n t self_id self_id s
      exact ⟨h.1, h.2.1, fun h1 => ⟨(h.2.2.1 h1).1, (h.2.2.1 h1).2.1⟩,
        h.2.2.2.1, h.2.2.2.2.1, h.2.2.2.2.2⟩

/-- Once the sent-ready flag is set, no later event disseminates ready
and the flag stays set. -/
theorem bracha_run_of_sent (n t self_id : Nat) (evs : List BrachaEvent)
    (s : BrachaState) (hs : s.sent_ready = true) :
    (bracha_run n t self_id s evs).2.1 = 0
    ∧ (bracha_run n t self_id s evs).1.sent_ready = true := by
  induction evs generalizing s with
  | nil => exact ⟨rfl, hs⟩
  | cons e evs ih =>
      have hf := bracha_step_facts n t self_id s e
      have hsend0 : (bracha_step n t self_id s e).2.1 = 0 := by
        rcases Nat.le_one_iff_eq_zero_or_eq_one.mp hf.1 with h0 | h1
        · exact h0
        · exact absurd hs (by simp [(hf.2.2.1 h1).1])
      have hflag : (bracha_step n t self_id s e).1.sent_ready = true := by
        rw [hf.2.1 hsend0]
        exact hs
      have hrest := ih (bracha_step n t self_id s e).1 hflag
      simp only [bracha_run]
      exact ⟨by simp [hsend0, hrest.1], hrest.2⟩

/-- Any run of events disseminates ready at most once. -/
theorem bracha_run_sends_le_one (n t self_id : Nat) (evs : List BrachaEvent)
    (s : BrachaState) : (bracha_run n t self_id s evs).2.1 ≤ 1 := by
  induction evs generalizing s with
  | nil => simp [bracha_run]
  | cons e evs ih =>
      have hf := bracha_step_facts n t self_id s e
      simp only [bracha_run]
      rcases Nat.le_one_iff_eq_zero_or_eq_one.mp hf.1 with h0 | h1
      · simpa [h0] using ih (bracha_step n t self_id s e).1
      · have hrest := bracha_run_of_sent n t self_id evs _ (hf.2.2.1 h1).2
        simp [h1, hrest.1]

/-- Once delivered, no later event delivers again and the delivered flag
stays set: delivery is terminal. -/
theorem bracha_run_of_delivered (n t self_id : Nat) (evs : List BrachaEvent)
    (s : BrachaState) (hd : s.delivered = true) :
    (bracha_run n t self_id s evs).2.2 = 0
    ∧ (bracha_run n t self_id s evs).1.delivered = true := by
  induction evs generalizing s with
  | nil => exact ⟨rfl, hd⟩
  | cons e evs ih =>
      have hf := bracha_step_facts n t self_id s e
      have hdel0 : (bracha_step n t self_id s e).2.2 = 0 := by
        rcases Nat.le_one_iff_eq_zero_or_eq_one.mp hf.2.2.2.1 with h0 | h1
        · exact h0
        · exact absurd hd (by simp [(hf.2.2.2.2.2 h1).1])
      have hflag : (bracha_step n t self_id s e).1.delivered = true := by
        rw [hf.2.2.2.2.1 hdel0]
        exact hd
      have hrest := ih (bracha_step n t self_id s e).1 hflag
      simp only [bracha_run]
      exact ⟨by simp [hdel0, hrest.1], hrest.2⟩

/-- Any run of events delivers at most once. -/
theorem bracha_run_delivers_le_one (n t self_id : Nat)
    (evs : List BrachaEvent) (s : BrachaState) :
    (bracha_run n t self_id s evs).2.2 ≤ 1 := by
  induction evs generalizing s with
  | nil => simp [bracha_run]
  | cons e evs ih =>
      have hf := bracha_step_facts n t self_id s e
      simp only [bracha_run]
      rcases Nat.le_one_iff_eq_zero_or_eq_one.mp hf.2.2.2.1 with h0 | h1
      · simpa [h0] using ih (bracha_step n t self_id s e).1
      · have hrest := bracha_run_of_delivered n t self_id evs _
          (hf.2.2.2.2.2 h1).2.1
        simp [h1, hrest.1]

/-- Splitting a run of events at any point gives the same final state. -/
theorem bracha_run_append_state (n t self_id : Nat)
    (l1 l2 : List BrachaEvent) (s : BrachaState) :
    (bracha_run n t self_id s (l1 ++ l2)).1
      = (bracha_run n t self_id (bracha_run n t self_id s l1).1 l2).1 := by
  induction l1 generalizing s with
  | nil => rfl
  | cons e l1 ih =>
      simp only [List.cons_append, bracha_run]
      exact ih (bracha_step n t self_id s e).1

/-- C6: in the Bracha broadcast step relation of `_broadcast`, a player
disseminates `ready` at most once over any event sequence, doing so
exactly when its count of distinct `echo` senders reaches
`ceil((n+t+1)/2)` or its count of distinct `ready` senders reaches
`t+1` while the sent-ready flag is still clear, and counting itself as
a ready sender immediately; it delivers at most once, exactly when the
count of distinct `ready` senders reaches `2t+1` with nothing delivered
yet; and delivery is terminal -- once some prefix of the events has
delivered, the flag remains set for the whole sequence. -/
theorem bracha_broadcast_spec (n t self_id : Nat)
    (evs : List BrachaEvent) :
    (bracha_run n t self_id bracha_init evs).2.1 ≤ 1
    ∧ (bracha_run n t self_id bracha_init evs).2.2 ≤ 1
    ∧ (∀ k, (bracha_run n t self_id bracha_init (evs.take k)).1.delivered = true →
        (bracha_run n t self_id bracha_init evs).1.delivered = true)
    ∧ (∀ (s : BrachaState) (p : Nat),
        (ready_received n t self_id p s).2.1 = 1 →
          s.sent_ready = false
          ∧ (ready_received n t self_id p s).1.sent_ready = true
          ∧ s.ready_ids.length + 1 = t + 1
          ∧ self_id ∈ (ready_received n t self_id p s).1.ready_ids)
    ∧ (∀ (s : BrachaState) (p : Nat),
        (echo_received n t self_id p s).2.1 = 1 →
          s.sent_ready = false
          ∧ (echo_received n t self_id p s).1.sent_ready = true
          ∧ echo_threshold n t
              ≤ (echo_received n t self_id p s).1.echo_ids.length
          ∧ self_id ∈ (echo_received n t self_id p s).1.ready_ids)
    ∧ (∀ (s : BrachaState) (e : BrachaEvent),
        (bracha_step n t self_id s e).2.2 = 1 →
          s.delivered = false
          ∧ (bracha_step n t self_id s e).1.delivered = true
          ∧ (bracha_step n t self_id s e).1.ready_ids.length = 2 * t + 1) := by
  refine ⟨bracha_run_sends_le_one n t self_id evs bracha_init,
    bracha_run_delivers_le_one n t self_id evs bracha_init,
    ?_, ?_, ?_, ?_⟩
  · intro k hk
    have hsplit := bracha_run_append_state n t self_id
      (evs.take k) (evs.drop k) bracha_init
    rw [List.take_append_drop] at hsplit
    rw [hsplit]
    exact (bracha_run_of_delivered n t self_id (evs.drop k) _ hk).2
  · intro s p h1
    exact (ready_received_facts n t self_id p s).2.2.1 h1
  · intro s p h1
    exact (echo_received_facts n t self_id p s).2.2.1 h1
  · intro s e h1
    exact (bracha_step_facts n t self_id s e).2.2.2.2.2 h1

/-- Witness for `bracha_broadcast_spec` with `n = 4`, `t = 1`, this
player `1`: the event sequence ready-from-2, ready-from-3 reaches the
`t+1` quorum at the second event, the player counts its own ready for a
total of `2t+1 = 3` and delivers; the delivery survives the remaining
events. -/
theorem bracha_broadcast_spec_witness :
    (bracha_run 4 1 1 bracha_init
        ([BrachaEvent.ready 2, BrachaEvent.ready 3,
          BrachaEvent.ready 4].take 2)).1.delivered = true
    ∧ (bracha_run 4 1 1 bracha_init
        [BrachaEvent.ready 2, BrachaEvent.ready 3,
          BrachaEvent.ready 4]).1.delivered = true := by
  have h2 : (bracha_run 4 1 1 bracha_init
      ([BrachaEvent.ready 2, BrachaEvent.ready 3,
        BrachaEvent.ready 4].take 2)).1.delivered = true := by
    simp [bracha_run, bracha_step, bracha_init, ready_received]
  exact ⟨h2, (bracha_broadcast_spec 4 1 1
    [BrachaEvent.ready 2, BrachaEvent.ready 3, BrachaEvent.ready 4]).2.2.1
    2 h2⟩

/-- C10: `Runtime.open` returns no share to a non-receiver: the returned
value is `None` exactly when this player's id is not in the receivers
list; when it is a receiver, the returned share resolves to the
reconstructed value -- the Shamir recombination of the first
`threshold + 1` collected `(player id, share)` pairs; and in both cases
the caller's own share is sent to exactly the receivers other than this
player itself. -/
theorem open_receivers_spec {F : Type} [Field F] [DecidableEq F]
    (s : OpenState) (receivers : Option (List Nat)) (threshold : Option Nat)
    (own_share : F) (incoming : Nat → F) :
    ((runtime_open s receivers threshold own_share incoming).2 = none
      ↔ s.id ∉ receivers.getD s.players)
    ∧ (s.id ∈ receivers.getD s.players →
        (runtime_open s receivers threshold own_share incoming).2
          = some (recombine ((s.players.map (fun (p : Nat) =>
              ((p : F), if p = s.id then own_share else incoming p))).take
                (threshold.getD s.threshold + 1))))
    ∧ (∀ q : Nat,
        (q, own_share) ∈ (runtime_open s receivers threshold own_share incoming).1
          ↔ q ∈ receivers.getD s.players ∧ q ≠ s.id) := by
  have hsends : (runtime_open s receivers threshold own_share incoming).1
      = ((receivers.getD s.players).filter (fun p => p ≠ s.id)).map
          (fun p => (p, own_share)) := by
    rw [runtime_open]
    by_cases hmem : s.id ∈ receivers.getD s.players
    · rw [if_pos hmem]
    · rw [if_neg hmem]
  refine ⟨?_, ?_, ?_⟩
  · by_cases hmem : s.id ∈ receivers.getD s.players
    · rw [runtime_open, if_pos hmem]
      simp [hmem]
    · rw [runtime_open, if_neg hmem]
      simp [hmem]
  · intro hmem
    rw [runtime_open, if_pos hmem]
  · intro q
    rw [hsends]
    constructor
    · intro hq
      rcases List.mem_map.mp hq with ⟨a, ha, heq⟩
      rcases List.mem_filter.mp ha with ⟨ha1, ha2⟩
      have haq : a = q := ((Prod.mk.injEq _ _ _ _).mp heq).1
      subst haq
      exact ⟨ha1, by simpa using ha2⟩
    · rintro ⟨h1, h2⟩
      exact List.mem_map.mpr ⟨q, List.mem_filter.mpr ⟨h1, by simpa using h2⟩, rfl⟩

/-- Witness for `open_receivers_spec`: player 1 of `[1, 2, 3]` with
threshold 1 opens towards the default receivers (everybody) and obtains
the recombination of the first two collected pairs. -/
theorem open_receivers_spec_witness :
    (OpenState.mk 1 1 [1, 2, 3]).id
      ∈ (none : Option (List Nat)).getD (OpenState.mk 1 1 [1, 2, 3]).players
    ∧ (runtime_open (F := ℚ) (OpenState.mk 1 1 [1, 2, 3]) none none 3
        (fun p => (p : ℚ))).2
      = some (recombine (((OpenState.mk 1 1 [1, 2, 3]).players.map
          (fun (p : Nat) =>
            ((p : ℚ), if p = (OpenState.mk 1 1 [1, 2, 3]).id then 3
              else ((p : Nat) : ℚ)))).take
            ((none : Option Nat).getD (OpenState.mk 1 1 [1, 2, 3]).threshold
              + 1))) :=
  ⟨by decide,
   (open_receivers_spec (OpenState.mk 1 1 [1, 2, 3]) none none 3
      (fun p => (p : ℚ))).2.1 (by decide)⟩

end Viff
